import Mathlib

/-!
Verification of the `AIORedisClient` module (`aclients/aio_redis_client.py`).

The development shallowly embeds the module: Python values that can flow
through the client are `PyVal`; the `ujson` dump/load pair is modelled by an
executable JSON printer and parser over `List Char`; the Redis store (with
`decode_responses=True`, so every stored value is a string) is an association
list from keys to typed entries carrying an optional TTL; each client method
becomes a pure function from a store to a result paired with the next store,
where Python exceptions are an explicit `Err` sum.
-/

namespace AClients

/- Python values that can be handed to the client (JSON-expressible data).
`PyList`/`PyObj` are mutual clones of `List`/association lists so that plain
mutual structural induction is available. -/
mutual

inductive PyVal where
  | str : String → PyVal
  | int : Int → PyVal
  | bool : Bool → PyVal
  | null : PyVal
  | list : PyList → PyVal
  | obj : PyObj → PyVal

inductive PyList where
  | nil : PyList
  | cons : PyVal → PyList → PyList

inductive PyObj where
  | nil : PyObj
  | cons : String → PyVal → PyObj → PyObj

end

deriving instance DecidableEq for PyVal
deriving instance Repr for PyVal

/-- The `isinstance(val, str)` test used throughout the module. -/
def isStr : PyVal → Bool
  | .str _ => true
  | _ => false

/-- Decimal digit to character. -/
def digitChar : Nat → Char
  | 0 => '0' | 1 => '1' | 2 => '2' | 3 => '3' | 4 => '4'
  | 5 => '5' | 6 => '6' | 7 => '7' | 8 => '8' | _ => '9'

/-- Character to decimal digit value. -/
def digitVal (c : Char) : Nat := c.toNat - 48

/-- Decimal digits of `n`, most significant first, prepended to `acc`.
Fuelled so that the kernel can evaluate it; `fuel ≥ n` always suffices. -/
def natToCharsAux : Nat → Nat → List Char → List Char
  | 0, _, acc => acc
  | _ + 1, 0, acc => acc
  | fuel + 1, n + 1, acc =>
      natToCharsAux fuel ((n + 1) / 10) (digitChar ((n + 1) % 10) :: acc)

/-- Decimal representation of a natural number. -/
def natToChars (n : Nat) : List Char :=
  if n = 0 then ['0'] else natToCharsAux n n []

/-- Decimal representation of an integer (Python `repr` of an int). -/
def intChars (n : Int) : List Char :=
  if n < 0 then '-' :: natToChars n.natAbs else natToChars n.natAbs

/-- JSON string-body escaping: quote and backslash get a backslash prefix
(models the escaping `ujson.dumps` applies to the characters that occur in
round-trips; other characters are emitted verbatim). -/
def escapeChars : List Char → List Char
  | [] => []
  | c :: rest =>
      if c = '"' ∨ c = '\\' then '\\' :: c :: escapeChars rest
      else c :: escapeChars rest

mutual

/-- Characters of `ujson.dumps` for a value. -/
def dumpsChars : PyVal → List Char
  | .str s => '"' :: (escapeChars s.data ++ ['"'])
  | .int n => intChars n
  | .bool true => ['t', 'r', 'u', 'e']
  | .bool false => ['f', 'a', 'l', 's', 'e']
  | .null => ['n', 'u', 'l', 'l']
  | .list .nil => ['[', ']']
  | .list (.cons x xs) => '[' :: (dumpsChars x ++ dumpsElemsChars xs)
  | .obj .nil => ['\x7b', '\x7d']
  | .obj (.cons k v kvs) =>
      '\x7b' :: ('"' :: (escapeChars k.data ++ '"' :: ':' :: dumpsChars v) ++ dumpsPairsChars kvs)

/-- Remaining array elements, each preceded by a comma, then `]`. -/
def dumpsElemsChars : PyList → List Char
  | .nil => [']']
  | .cons x xs => ',' :: (dumpsChars x ++ dumpsElemsChars xs)

/-- Remaining object members, each preceded by a comma, then the closing brace. -/
def dumpsPairsChars : PyObj → List Char
  | .nil => ['\x7d']
  | .cons k v kvs =>
      ',' :: ('"' :: (escapeChars k.data ++ '"' :: ':' :: dumpsChars v) ++ dumpsPairsChars kvs)

end

/-- `ujson.dumps` on a value. -/
def dumps (v : PyVal) : String := String.mk (dumpsChars v)

mutual

/-- Parse the body of a JSON string literal after the opening quote; returns
the unescaped characters and the input after the closing quote. -/
def parseStrChars : List Char → Option (List Char × List Char)
  | [] => none
  | c :: rest =>
      if c = '"' then some ([], rest)
      else if c = '\\' then parseStrEsc rest
      else (parseStrChars rest).map (fun p => (c :: p.1, p.2))

/-- Continue a string literal right after a backslash. -/
def parseStrEsc : List Char → Option (List Char × List Char)
  | [] => none
  | c2 :: rest2 =>
      if c2 = '"' ∨ c2 = '\\' then
        (parseStrChars rest2).map (fun p => (c2 :: p.1, p.2))
      else none

end

/-- Consume a maximal run of decimal digits, accumulating their value. -/
def parseDigits : List Char → Nat → Nat × List Char
  | [], acc => (acc, [])
  | c :: rest, acc =>
      if c.isDigit then parseDigits rest (acc * 10 + digitVal c)
      else (acc, c :: rest)

/-- Parse a negative number right after the minus sign. -/
def negIntParse : List Char → Option (PyVal × List Char)
  | [] => none
  | c2 :: r2 =>
      if c2.isDigit then
        let p := parseDigits (c2 :: r2) 0
        some (.int (-(p.1 : Int)), p.2)
      else none

mutual

/-- Fuelled JSON value parser (models `ujson.loads` on the texts the module
produces and receives). -/
def parseVal : Nat → List Char → Option (PyVal × List Char)
  | 0, _ => none
  | _ + 1, [] => none
  | fuel + 1, c :: rest =>
      if c = '"' then
        (parseStrChars rest).map (fun p => (PyVal.str (String.mk p.1), p.2))
      else if c = '[' then
        if rest.head? = some ']' then some (.list .nil, rest.tail)
        else (parseElems fuel rest).map (fun p => (PyVal.list p.1, p.2))
      else if c = '\x7b' then
        if rest.head? = some '\x7d' then some (.obj .nil, rest.tail)
        else (parsePairs fuel rest).map (fun p => (PyVal.obj p.1, p.2))
      else if c = 't' then
        if rest.take 3 = ['r', 'u', 'e'] then some (.bool true, rest.drop 3) else none
      else if c = 'f' then
        if rest.take 4 = ['a', 'l', 's', 'e'] then some (.bool false, rest.drop 4) else none
      else if c = 'n' then
        if rest.take 3 = ['u', 'l', 'l'] then some (.null, rest.drop 3) else none
      else if c = '-' then negIntParse rest
      else if c.isDigit then
        let p := parseDigits (c :: rest) 0
        some (.int (p.1 : Int), p.2)
      else none

/-- Parse one or more comma-separated array elements and the closing `]`. -/
def parseElems : Nat → List Char → Option (PyList × List Char)
  | 0, _ => none
  | fuel + 1, cs =>
      match parseVal fuel cs with
      | none => none
      | some (v, rest) =>
          match rest with
          | ',' :: r2 => (parseElems fuel r2).map (fun p => (PyList.cons v p.1, p.2))
          | ']' :: r2 => some (.cons v .nil, r2)
          | _ => none

/-- Parse one or more comma-separated object members and the closing brace. -/
def parsePairs : Nat → List Char → Option (PyObj × List Char)
  | 0, _ => none
  | _ + 1, [] => none
  | fuel + 1, c :: cs1 =>
      if c = '"' then
        match parseStrChars cs1 with
        | none => none
        | some (k, cs2) =>
            match cs2 with
            | ':' :: cs3 =>
                match parseVal fuel cs3 with
                | none => none
                | some (v, rest) =>
                    match rest with
                    | ',' :: r2 =>
                        (parsePairs fuel r2).map
                          (fun p => (PyObj.cons (String.mk k) v p.1, p.2))
                    | '\x7d' :: r2 => some (.cons (String.mk k) v .nil, r2)
                    | _ => none
            | _ => none
      else none

end

/-- `ujson.loads`: parse and demand the whole input is consumed. -/
def loads (s : String) : Option PyVal :=
  match parseVal (s.data.length + 1) s.data with
  | some (v, []) => some v
  | _ => none

/-- The ubiquitous `val if isinstance(val, str) else ujson.dumps(val)`. -/
def serializeVal : PyVal → String
  | .str s => s
  | v => dumps v

/-- Python exceptions observable from the module.  `redisClientError` is the
domain error class `RedisClientError` from `aclients.exceptions` (not under
`src/`); modelled from the spec: a single `ClientError` kind carrying a
human-readable message, distinct from the built-in `ValueError`, `TypeError`
and `KeyError`. -/
inductive Err where
  | redisClientError : String → Err
  | valueError : String → Err
  | typeError : String → Err
  | keyError : String → Err
deriving DecidableEq, Repr

/-- Whether an exception is the domain `RedisClientError` kind. -/
def Err.isRedisClientError : Err → Bool
  | .redisClientError _ => true
  | _ => false

/-- Association-list lookup, first binding wins (Python dict / Redis hash). -/
def alookup {α : Type} : List (String × α) → String → Option α
  | [], _ => none
  | (k, v) :: rest, key => if k = key then some v else alookup rest key

/-- Insert-or-replace a binding, preserving the position of an existing key. -/
def aset : List (String × String) → String → String → List (String × String)
  | [], k, v => [(k, v)]
  | (k1, v1) :: rest, k, v =>
      if k1 = k then (k, v) :: rest else (k1, v1) :: aset rest k v

/-- Remove the first binding of a key (Python `dict.pop` on unique keys). -/
def aremove {α : Type} : List (String × α) → String → List (String × α)
  | [], _ => []
  | (k1, v1) :: rest, k => if k1 = k then rest else (k1, v1) :: aremove rest k

/-- A Redis value: hash, list or plain string (all leaves are strings since
the client is built with `decode_responses=True`). -/
inductive RVal where
  | hash : List (String × String) → RVal
  | list : List String → RVal
  | str : String → RVal
deriving DecidableEq, Repr

/-- One key's stored value together with its remaining-TTL setting. -/
structure Entry where
  val : RVal
  ttl : Option Nat
deriving DecidableEq, Repr

/-- The Redis database: keys to entries. -/
abbrev Store := List (String × Entry)

/-- Insert-or-replace a key's entry. -/
def storeSet : Store → String → Entry → Store
  | [], k, e => [(k, e)]
  | (k1, e1) :: rest, k, e =>
      if k1 = k then (k, e) :: rest else (k1, e1) :: storeSet rest k e

/-- Remove a key. -/
def storeRemove : Store → String → Store
  | [], _ => []
  | (k1, e1) :: rest, k => if k1 = k then rest else (k1, e1) :: storeRemove rest k

/-- Redis `HMSET`: merge a nonempty field mapping into the hash at `name`.
An empty mapping or a key of the wrong type is a `RedisError`. -/
def hmset (st : Store) (name : String) (mapping : List (String × String)) :
    Except String (Bool × Store) :=
  if mapping = [] then .error "hmset with mapping of length 0"
  else
    match alookup st name with
    | none =>
        .ok (true, storeSet st name
          ⟨.hash (mapping.foldl (fun fs kv => aset fs kv.1 kv.2) []), none⟩)
    | some ⟨.hash fs, t⟩ =>
        .ok (true, storeSet st name
          ⟨.hash (mapping.foldl (fun fs kv => aset fs kv.1 kv.2) fs), t⟩)
    | some _ => .error "WRONGTYPE Operation against a key holding the wrong kind of value"

/-- Redis `HGETALL`: all fields of a hash; an absent key reads as empty. -/
def hgetall (st : Store) (name : String) : Except String (List (String × String)) :=
  match alookup st name with
  | none => .ok []
  | some ⟨.hash fs, _⟩ => .ok fs
  | some _ => .error "WRONGTYPE Operation against a key holding the wrong kind of value"

/-- Redis `HGET`: one field of a hash; absent key or field reads as nil. -/
def hget (st : Store) (name field : String) : Except String (Option String) :=
  match alookup st name with
  | none => .ok none
  | some ⟨.hash fs, _⟩ => .ok (alookup fs field)
  | some _ => .error "WRONGTYPE Operation against a key holding the wrong kind of value"

/-- Redis `EXPIRE`: set the TTL of an existing key; reports whether it existed. -/
def expire (st : Store) (name : String) (ex : Nat) : Bool × Store :=
  match alookup st name with
  | none => (false, st)
  | some e => (true, storeSet st name ⟨e.val, some ex⟩)

/-- Redis `DEL` on one key: number of keys removed. -/
def redisDelete (st : Store) (name : String) : Nat × Store :=
  match alookup st name with
  | none => (0, st)
  | some _ => (1, storeRemove st name)

/-- Redis `SET` with expiry (`set(name, value, ex)`): always succeeds. -/
def redisSet (st : Store) (name value : String) (ex : Nat) : Bool × Store :=
  (true, storeSet st name ⟨.str value, some ex⟩)

/-- Redis `GET`: the string at a key; absent key reads as nil. -/
def redisGet (st : Store) (name : String) : Except String (Option String) :=
  match alookup st name with
  | none => .ok none
  | some ⟨.str s, _⟩ => .ok (some s)
  | some _ => .error "WRONGTYPE Operation against a key holding the wrong kind of value"

/-- Redis `LPUSH`: prepend values one at a time (so the block ends reversed). -/
def lpush (st : Store) (name : String) (vals : List String) :
    Except String (Nat × Store) :=
  if vals = [] then .error "wrong number of arguments for lpush command"
  else
    match alookup st name with
    | none => .ok (vals.length, storeSet st name ⟨.list vals.reverse, none⟩)
    | some ⟨.list l, t⟩ =>
        .ok (vals.length + l.length, storeSet st name ⟨.list (vals.reverse ++ l), t⟩)
    | some _ => .error "WRONGTYPE Operation against a key holding the wrong kind of value"

/-- Redis `RPUSH`: append values in order. -/
def rpush (st : Store) (name : String) (vals : List String) :
    Except String (Nat × Store) :=
  if vals = [] then .error "wrong number of arguments for rpush command"
  else
    match alookup st name with
    | none => .ok (vals.length, storeSet st name ⟨.list vals, none⟩)
    | some ⟨.list l, t⟩ =>
        .ok (vals.length + l.length, storeSet st name ⟨.list (l ++ vals), t⟩)
    | some _ => .error "WRONGTYPE Operation against a key holding the wrong kind of value"

/-- Redis `LRANGE` index arithmetic: inclusive range, negative offsets count
from the end, out-of-range offsets are clamped. -/
def lrangeList (l : List String) (start stop : Int) : List String :=
  let n : Int := (l.length : Int)
  let s0 : Int := if start < 0 then n + start else start
  let e0 : Int := if stop < 0 then n + stop else stop
  let s1 : Int := max s0 0
  let e1 : Int := min e0 (n - 1)
  if s1 > e1 then [] else (l.drop s1.toNat).take (e1 - s1 + 1).toNat

/-- Redis `LRANGE` on a key; absent key reads as the empty list. -/
def lrange (st : Store) (name : String) (start stop : Int) :
    Except String (List String) :=
  match alookup st name with
  | none => .ok []
  | some ⟨.list l, _⟩ => .ok (lrangeList l start stop)
  | some _ => .error "WRONGTYPE Operation against a key holding the wrong kind of value"

/-- A `Session` instance: the four fixed attributes plus the extra attributes
set from `**kwargs` (in assignment order, as in the instance `__dict__`). -/
structure Session where
  user_id : PyVal
  session_id : PyVal
  org_id : PyVal
  permission_id : PyVal
  kwargs : List (String × PyVal)
deriving DecidableEq, Repr

/-- The four named parameters of `Session.__init__`. -/
def fixedNames : List String := ["user_id", "session_id", "org_id", "permission_id"]

/-- `vars(session)`: the instance dictionary, fixed attributes first in
assignment order, then the extra attributes. -/
def Session.varsDict (s : Session) : List (String × PyVal) :=
  ("user_id", s.user_id) :: ("session_id", s.session_id) :: ("org_id", s.org_id)
    :: ("permission_id", s.permission_id) :: s.kwargs

/-- Well-formedness every session built by `Session.__init__` enjoys: the
extra keyword names avoid the four named parameters (a collision would be a
`TypeError` at construction) and are pairwise distinct (`**kwargs` is a dict). -/
def Session.WF (s : Session) : Prop :=
  (∀ kv ∈ s.kwargs, kv.1 ∉ fixedNames) ∧ (s.kwargs.map Prod.fst).Nodup

instance (s : Session) : Decidable s.WF := by
  unfold Session.WF; infer_instance

/-- Python call semantics of
`Session(user_id=u, session_id=si, org_id=oi, permission_id=pi, **kwargs)`:
if `kwargs` repeats one of the explicitly passed keywords the call raises
`TypeError: got multiple values for keyword argument`; otherwise the fields
are assigned and the extras attached.  (The `or`-based regeneration of absent
or falsy ids inside `__init__` is not reached on these inputs.) -/
def sessionKwCall (u si oi pi : PyVal) (kwargs : List (String × PyVal)) :
    Except Err Session :=
  if kwargs.any (fun kv => kv.1 ∈ fixedNames.drop 1) then
    .error (.typeError "got multiple values for keyword argument")
  else if kwargs.any (fun kv => kv.1 = "user_id") then
    .error (.typeError "got multiple values for keyword argument")
  else .ok ⟨u, si, oi, pi, kwargs⟩

/-- `save_session`: serialize `vars(session)` (strings kept, anything else
JSON-dumped), `HMSET` it under `session_data["session_id"]`, `EXPIRE` it,
return `session.session_id`. -/
def save_session (st : Store) (session : Session) (ex : Nat) :
    Except Err PyVal × Store :=
  let session_data := session.varsDict.map (fun kv => (kv.1, serializeVal kv.2))
  match alookup session_data "session_id" with
  | none => (.error (.keyError "session_id"), st)
  | some key =>
      match hmset st key session_data with
      | .error e => (.error (.redisClientError e), st)
      | .ok (ok1, st1) =>
          if ok1 = false then
            (.error (.redisClientError ("save session failed, session_id=" ++ key)), st1)
          else
            match expire st1 key ex with
            | (ok2, st2) =>
                if ok2 = false then
                  (.error (.redisClientError
                    ("set session expire failed, session_id=" ++ key)), st2)
                else (.ok session.session_id, st2)

/-- `update_session`: the same write path as `save_session` except for the
failure message of the `HMSET` check; the Python function has no `return`
statement, so it evaluates to `None` on success. -/
def update_session (st : Store) (session : Session) (ex : Nat) :
    Except Err PyVal × Store :=
  let session_data := session.varsDict.map (fun kv => (kv.1, serializeVal kv.2))
  match alookup session_data "session_id" with
  | none => (.error (.keyError "session_id"), st)
  | some key =>
      match hmset st key session_data with
      | .error e => (.error (.redisClientError e), st)
      | .ok (ok1, st1) =>
          if ok1 = false then
            (.error (.redisClientError ("update session failed, session_id=" ++ key)), st1)
          else
            match expire st1 key ex with
            | (ok2, st2) =>
                if ok2 = false then
                  (.error (.redisClientError
                    ("set session expire failed, session_id=" ++ key)), st2)
                else (.ok .null, st2)

/-- `delete_session`: `HGET` the stored `session_id` field, fail on mismatch,
then `DEL` and fail if no key was removed. -/
def delete_session (st : Store) (session_id : String) : Except Err Unit × Store :=
  match hget st session_id "session_id" with
  | .error e => (.error (.redisClientError e), st)
  | .ok stored =>
      if stored ≠ some session_id then
        (.error (.redisClientError ("invalid session_id, session_id=" ++ session_id)), st)
      else
        match redisDelete st session_id with
        | (n, st1) =>
            if n = 0 then
              (.error (.redisClientError
                ("delete session failed, session_id=" ++ session_id)), st1)
            else (.ok (), st1)

/-- `get_session`: `HGETALL`, fail when empty, `EXPIRE`, then rebuild a
`Session` via
`Session(user_id=d.pop("user_id"), session_id=d["session_id"], org_id=d["org_id"], permission_id=d["permission_id"], **d)`.
Since `decode_responses=True` makes every `HGETALL` value a string, the
comprehension `val if isinstance(val, str) else ujson.loads(val)` keeps each
value unchanged (the `ujson.loads` branch is dead). -/
def get_session (st : Store) (session_id : String) (ex : Nat) :
    Except Err Session × Store :=
  match hgetall st session_id with
  | .error e => (.error (.redisClientError e), st)
  | .ok session_data =>
      if session_data = [] then
        (.error (.redisClientError ("not found session, session_id=" ++ session_id)), st)
      else
        match expire st session_id ex with
        | (ok1, st1) =>
            if ok1 = false then
              (.error (.redisClientError
                ("set session expire failed, session_id=" ++ session_id)), st1)
            else
              let sd := session_data.map (fun kv => (kv.1, kv.2))
              match alookup sd "user_id" with
              | none => (.error (.keyError "user_id"), st1)
              | some u =>
                  let rest := aremove sd "user_id"
                  match alookup rest "session_id" with
                  | none => (.error (.keyError "session_id"), st1)
                  | some si =>
                      match alookup rest "org_id" with
                      | none => (.error (.keyError "org_id"), st1)
                      | some oi =>
                          match alookup rest "permission_id" with
                          | none => (.error (.keyError "permission_id"), st1)
                          | some pi =>
                              match sessionKwCall (.str u) (.str si) (.str oi) (.str pi)
                                  (rest.map (fun kv => (kv.1, PyVal.str kv.2))) with
                              | .error e => (.error e, st1)
                              | .ok s => (.ok s, st1)

/-- The `isinstance(hash_data, MutableMapping)` test: among `PyVal` shapes
only a dict is a `MutableMapping`. -/
def isMutableMapping : PyVal → Bool
  | .obj _ => true
  | _ => false

/-- `PyObj` as an association list. -/
def PyObj.toList : PyObj → List (String × PyVal)
  | .nil => []
  | .cons k v rest => (k, v) :: PyObj.toList rest

/-- How the aredis client encodes one hash value onto the wire: strings pass
through, ints are printed in decimal, anything else raises `DataError`
(a `RedisError`). -/
def encodeRedisVal : PyVal → Except String String
  | .str s => .ok s
  | .int n => .ok (String.mk (intChars n))
  | _ => .error "Invalid input of unsupported type"

/-- Encode every value of a field mapping. -/
def encodeFields : List (String × PyVal) → Except String (List (String × String))
  | [] => .ok []
  | (k, v) :: rest =>
      match encodeRedisVal v with
      | .error e => .error e
      | .ok s =>
          match encodeFields rest with
          | .error e => .error e
          | .ok tail => .ok ((k, s) :: tail)

/-- `save_update_hash_data`: reject non-mapping input with `ValueError`
before any store command, else `HMSET` + `EXPIRE` and return `name`. -/
def save_update_hash_data (st : Store) (name : String) (hash_data : PyVal) (ex : Nat) :
    Except Err String × Store :=
  match hash_data with
  | .obj o =>
      match encodeFields o.toList with
      | .error e => (.error (.redisClientError e), st)
      | .ok fields =>
          match hmset st name fields with
          | .error e => (.error (.redisClientError e), st)
          | .ok (ok1, st1) =>
              if ok1 = false then
                (.error (.redisClientError ("save hash data failed, session_id=" ++ name)), st1)
              else
                match expire st1 name ex with
                | (ok2, st2) =>
                    if ok2 = false then
                      (.error (.redisClientError
                        ("set hash data expire failed, session_id=" ++ name)), st2)
                    else (.ok name, st2)
  | _ => (.error (.valueError "hash data error, must be MutableMapping."), st)

/-- Result shape of `get_hash_data`: a single field's (possibly nil) value,
or the whole hash. -/
inductive HashData where
  | field : Option String → HashData
  | whole : List (String × String) → HashData
deriving DecidableEq, Repr

/-- Python truthiness of the `field_name` argument (`None` and `""` are falsy). -/
def truthyFieldName : Option String → Bool
  | none => false
  | some s => if s = "" then false else true

/-- `get_hash_data`: `HGET` when `field_name` is truthy else `HGETALL`,
then `EXPIRE` (failing when the key is absent). -/
def get_hash_data (st : Store) (name : String) (field_name : Option String) (ex : Nat) :
    Except Err HashData × Store :=
  let read : Except String HashData :=
    if truthyFieldName field_name then
      match hget st name (field_name.getD "") with
      | .error e => .error e
      | .ok v => .ok (.field v)
    else
      match hgetall st name with
      | .error e => .error e
      | .ok fs => .ok (.whole fs)
  match read with
  | .error e => (.error (.redisClientError e), st)
  | .ok data =>
      match expire st name ex with
      | (ok1, st1) =>
          if ok1 = false then
            (.error (.redisClientError ("set expire failed, name=" ++ name)), st1)
          else (.ok data, st1)

/-- `get_list_data`: `LRANGE` then `EXPIRE` (failing when the key is absent). -/
def get_list_data (st : Store) (name : String) (start stop : Int) (ex : Nat) :
    Except Err (List String) × Store :=
  match lrange st name start stop with
  | .error e => (.error (.redisClientError e), st)
  | .ok data =>
      match expire st name ex with
      | (ok1, st1) =>
          if ok1 = false then
            (.error (.redisClientError ("set expire failed, name=" ++ name)), st1)
          else (.ok data, st1)

/-- The `list_data: list or str` argument of `save_list_data`. -/
inductive ListArg where
  | single : String → ListArg
  | many : List String → ListArg
deriving DecidableEq, Repr

/-- `(list_data,) if isinstance(list_data, str) else list_data`. -/
def normalizeArg : ListArg → List String
  | .single s => [s]
  | .many l => l

/-- `save_list_data`: normalize a lone string, `LPUSH`/`RPUSH` per
`save_to_left`, `EXPIRE`, return `name`. -/
def save_list_data (st : Store) (name : String) (list_data : ListArg)
    (save_to_left : Bool) (ex : Nat) : Except Err String × Store :=
  let ld := normalizeArg list_data
  let pushed : Except String (Nat × Store) :=
    if save_to_left then lpush st name ld else rpush st name ld
  match pushed with
  | .error e => (.error (.redisClientError e), st)
  | .ok (n, st1) =>
      if n = 0 then
        (.error (.redisClientError
          (if save_to_left then "lpush value to head failed."
           else "lpush value to tail failed.")), st1)
      else
        match expire st1 name ex with
        | (ok2, st2) =>
            if ok2 = false then
              (.error (.redisClientError ("set expire failed, name=" ++ name)), st2)
            else (.ok name, st2)

/-- `save_update_usual_data`: JSON-dump a non-string value, then one
`SET`-with-expiry call, returning `name`. -/
def save_update_usual_data (st : Store) (name : String) (value : PyVal) (ex : Nat) :
    Except Err String × Store :=
  let v := serializeVal value
  match redisSet st name v ex with
  | (ok1, st1) =>
      if ok1 = false then
        (.error (.redisClientError "set serializable value failed!"), st1)
      else (.ok name, st1)

/-- `get_usual_data`: `GET`, `EXPIRE` (failing when the key is absent), then
`with ignore_error(): data = ujson.loads(data)`.  `ignore_error` lives in
`aclients.utils` (not under `src/`); modelled from the spec: a silent
try-JSON-decode falling back to the raw value when decoding raises. -/
def get_usual_data (st : Store) (name : String) (ex : Nat) :
    Except Err PyVal × Store :=
  match redisGet st name with
  | .error e => (.error (.redisClientError e), st)
  | .ok data =>
      match expire st name ex with
      | (ok1, st1) =>
          if ok1 = false then
            (.error (.redisClientError ("set expire failed, name=" ++ name)), st1)
          else
            match data with
            | none => (.ok .null, st1)
            | some s =>
                match loads s with
                | some v => (.ok v, st1)
                | none => (.ok (.str s), st1)

/- Auxiliary measures and predicates used to state the parser/printer
round-trip (fuel accounting for `parseVal`). -/
mutual

def sizeM : PyVal → Nat
  | .list l => 1 + sizeE l
  | .obj o => 1 + sizeP o
  | _ => 1

def sizeE : PyList → Nat
  | .nil => 0
  | .cons x xs => 1 + sizeM x + sizeE xs

def sizeP : PyObj → Nat
  | .nil => 0
  | .cons _ v kvs => 1 + sizeM v + sizeP kvs

end

/-- The continuation after a serialized value never starts with a digit (so
greedy number parsing stops in the right place). -/
def safeRest : List Char → Prop
  | [] => True
  | c :: _ => c.isDigit = false

/-- Round-trip statement for `parseVal` at a given fuel. -/
def ParseValOk (fuel : Nat) : Prop :=
  ∀ v rest, sizeM v < fuel → safeRest rest →
    parseVal fuel (dumpsChars v ++ rest) = some (v, rest)

/-- Round-trip statement for `parseElems` at a given fuel. -/
def ParseElemsOk (fuel : Nat) : Prop :=
  ∀ x xs rest, sizeE (.cons x xs) < fuel → safeRest rest →
    parseElems fuel (dumpsChars x ++ dumpsElemsChars xs ++ rest) = some (.cons x xs, rest)

/-- Round-trip statement for `parsePairs` at a given fuel. -/
def ParsePairsOk (fuel : Nat) : Prop :=
  ∀ k v kvs rest, sizeP (.cons k v kvs) < fuel → safeRest rest →
    parsePairs fuel
        ('"' :: (escapeChars k.data ++ '"' :: ':' :: dumpsChars v) ++ dumpsPairsChars kvs ++ rest)
      = some (.cons k v kvs, rest)

/-- Decimal value of a digit string under the accumulator fold of `parseDigits`. -/
def foldDigits (acc : Nat) (ds : List Char) : Nat :=
  ds.foldl (fun a c => a * 10 + digitVal c) acc

/-- A key that is either absent or holds a hash (so `HMSET` cannot fail on it). -/
def hashCompatB (st : Store) (k : String) : Bool :=
  match alookup st k with
  | none => true
  | some ⟨.hash _, _⟩ => true
  | some _ => false

/-- Iterated `save_list_data` calls sharing one key, direction flag and TTL. -/
def foldSaveList (st : Store) (name : String) (chunks : List ListArg)
    (save_to_left : Bool) (ex : Nat) : Store :=
  chunks.foldl (fun s c => (save_list_data s name c save_to_left ex).2) st

/-- The full insertion sequence of a series of `save_list_data` calls. -/
def elemsOf (chunks : List ListArg) : List String := (chunks.map normalizeArg).flatten

/-- Concrete session exercising the save/get round-trip (all attribute values
are plain strings, one extra attribute `foo`). -/
def c1session : Session :=
  ⟨.str "u1", .str "s1", .str "o1", .str "p1", [("foo", .str "bar")]⟩

/-- Concrete session exercising `save_session` versus `update_session`. -/
def c7session : Session := ⟨.str "u7", .str "s7", .str "o7", .str "p7", []⟩

/-- Concrete session exercising the C6 save specification. -/
def w6session : Session :=
  ⟨.str "u6", .str "s6", .str "o6", .str "p6", [("role", .str "admin")]⟩

/-! Lemmas: decimal printing and parsing. -/

theorem digitChar_isDigit (d : Nat) : (digitChar d).isDigit = true := by
  match d with
  | 0 | 1 | 2 | 3 | 4 | 5 | 6 | 7 | 8 => rfl
  | n + 9 => rfl

theorem digitVal_digitChar (d : Nat) (h : d < 10) : digitVal (digitChar d) = d := by
  interval_cases d <;> rfl

theorem natToCharsAux_split (fuel : Nat) :
    ∀ n acc, natToCharsAux fuel n acc = natToCharsAux fuel n [] ++ acc := by
  induction fuel with
  | zero => intro n acc; rfl
  | succ f ih =>
      intro n acc
      match n with
      | 0 => rfl
      | m + 1 =>
          have h1 : natToCharsAux (f + 1) (m + 1) acc =
              natToCharsAux f ((m + 1) / 10) (digitChar ((m + 1) % 10) :: acc) := rfl
          have h2 : natToCharsAux (f + 1) (m + 1) [] =
              natToCharsAux f ((m + 1) / 10) [digitChar ((m + 1) % 10)] := rfl
          rw [h1, h2, ih ((m + 1) / 10) (digitChar ((m + 1) % 10) :: acc),
            ih ((m + 1) / 10) [digitChar ((m + 1) % 10)]]
          simp

theorem natToCharsAux_digits (fuel : Nat) :
    ∀ n c, c ∈ natToCharsAux fuel n [] → c.isDigit = true := by
  induction fuel with
  | zero => intro n c h; simp [natToCharsAux] at h
  | succ f ih =>
      intro n c h
      match n with
      | 0 => simp [natToCharsAux] at h
      | m + 1 =>
          rw [show natToCharsAux (f + 1) (m + 1) [] =
                natToCharsAux f ((m + 1) / 10) [digitChar ((m + 1) % 10)] from rfl,
              natToCharsAux_split f _ _] at h
          rcases List.mem_append.mp h with h1 | h1
          · exact ih _ _ h1
          · rcases List.mem_singleton.mp h1 with rfl
            exact digitChar_isDigit _

theorem foldDigits_append (a : Nat) (xs ys : List Char) :
    foldDigits a (xs ++ ys) = foldDigits (foldDigits a xs) ys := by
  simp [foldDigits, List.foldl_append]

theorem natToCharsAux_val (fuel : Nat) :
    ∀ n, n ≤ fuel → foldDigits 0 (natToCharsAux fuel n []) = n := by
  induction fuel with
  | zero =>
      intro n h
      interval_cases n
      simp [natToCharsAux, foldDigits]
  | succ f ih =>
      intro n h
      match n with
      | 0 => simp [natToCharsAux, foldDigits]
      | m + 1 =>
          have hm : (m + 1) / 10 ≤ f := by
            have := Nat.div_lt_self (Nat.succ_pos m) (by norm_num : (1 : Nat) < 10)
            omega
          rw [show natToCharsAux (f + 1) (m + 1) [] =
                natToCharsAux f ((m + 1) / 10) [digitChar ((m + 1) % 10)] from rfl,
              natToCharsAux_split f _ _]
          rw [foldDigits_append, ih _ hm]
          have hmod : digitVal (digitChar ((m + 1) % 10)) = (m + 1) % 10 :=
            digitVal_digitChar _ (Nat.mod_lt _ (by omega))
          simp only [foldDigits, List.foldl_cons, List.foldl_nil, hmod]
          have hdm := Nat.div_add_mod (m + 1) 10
          omega

theorem natToChars_digits (n : Nat) : ∀ c ∈ natToChars n, c.isDigit = true := by
  intro c h
  unfold natToChars at h
  by_cases hn : n = 0
  · simp [hn] at h; rcases h; rfl
  · rw [if_neg hn] at h
    exact natToCharsAux_digits n n c h

theorem natToChars_ne_nil (n : Nat) : natToChars n ≠ [] := by
  unfold natToChars
  by_cases hn : n = 0
  · simp [hn]
  · rw [if_neg hn]
    match n, hn with
    | m + 1, _ =>
        rw [show natToCharsAux (m + 1) (m + 1) [] =
              natToCharsAux m ((m + 1) / 10) [digitChar ((m + 1) % 10)] from rfl,
            natToCharsAux_split m _ _]
        simp

theorem natToChars_val (n : Nat) : foldDigits 0 (natToChars n) = n := by
  unfold natToChars
  by_cases hn : n = 0
  · simp [hn, foldDigits, digitVal]
  · rw [if_neg hn]
    exact natToCharsAux_val n n (le_refl n)

theorem parseDigits_spec (ds : List Char) :
    ∀ rest acc, (∀ c ∈ ds, c.isDigit = true) → safeRest rest →
      parseDigits (ds ++ rest) acc = (foldDigits acc ds, rest) := by
  induction ds with
  | nil =>
      intro rest acc _ hsafe
      match rest with
      | [] => rfl
      | c :: r =>
          simp only [safeRest] at hsafe
          simp [parseDigits, hsafe, foldDigits]
  | cons d ds ih =>
      intro rest acc hd hsafe
      have hdig : d.isDigit = true := hd d (by simp)
      simp only [List.cons_append, parseDigits, hdig, if_true]
      rw [show ds.append rest = ds ++ rest from rfl,
        ih rest _ (fun c hc => hd c (by simp [hc])) hsafe]
      simp [foldDigits]

/-! Lemmas: character facts. -/

theorem isDigit_ne_special (c : Char) (h : c.isDigit = true) :
    c ≠ '"' ∧ c ≠ '[' ∧ c ≠ '\x7b' ∧ c ≠ 't' ∧ c ≠ 'f' ∧ c ≠ 'n' ∧ c ≠ '-' ∧
      c ≠ ']' ∧ c ≠ '\x7d' := by
  refine ⟨?_, ?_, ?_, ?_, ?_, ?_, ?_, ?_, ?_⟩ <;> (rintro rfl; revert h; decide)

theorem strMkData (s : String) : String.mk s.data = s := rfl

/-! Lemmas: string-literal escaping and parsing. -/

theorem parseStr_escape (cs : List Char) :
    ∀ rest, parseStrChars (escapeChars cs ++ '"' :: rest) = some (cs, rest) := by
  induction cs with
  | nil => intro rest; simp [escapeChars, parseStrChars]
  | cons c cs ih =>
      intro rest
      by_cases hc : c = '"' ∨ c = '\\'
      · simp only [escapeChars, if_pos hc, List.cons_append]
        simp +decide [parseStrChars, parseStrEsc, hc, ih rest]
      · have hc2 : ¬(c = '"' ∨ c = '\\') := hc
        push_neg at hc
        simp only [escapeChars, if_neg hc2, List.cons_append]
        simp [parseStrChars, hc.1, hc.2, hc2, ih rest]

/-! Lemmas: shapes of serialized output. -/

theorem dumps_head_shape (v : PyVal) :
    ∃ c cs, dumpsChars v = c :: cs ∧ c ≠ ']' ∧ c ≠ '\x7d' := by
  cases v with
  | str s => exact ⟨'"', _, rfl, by decide, by decide⟩
  | int n =>
      by_cases hn : n < 0
      · refine ⟨'-', natToChars n.natAbs, ?_, by decide, by decide⟩
        simp [dumpsChars, intChars, hn]
      · obtain ⟨c, cs, hcs⟩ := List.exists_cons_of_ne_nil (natToChars_ne_nil n.natAbs)
        have hd : c.isDigit = true := natToChars_digits _ c (by rw [hcs]; simp)
        have hne := isDigit_ne_special c hd
        refine ⟨c, cs, ?_, hne.2.2.2.2.2.2.2.1, hne.2.2.2.2.2.2.2.2⟩
        simp [dumpsChars, intChars, hn, hcs]
  | bool b => cases b
              · exact ⟨'f', _, rfl, by decide, by decide⟩
              · exact ⟨'t', _, rfl, by decide, by decide⟩
  | null => exact ⟨'n', _, rfl, by decide, by decide⟩
  | list l => cases l
              · exact ⟨'[', _, rfl, by decide, by decide⟩
              · exact ⟨'[', _, rfl, by decide, by decide⟩
  | obj o => cases o
             · exact ⟨'\x7b', _, rfl, by decide, by decide⟩
             · exact ⟨'\x7b', _, rfl, by decide, by decide⟩

theorem safeRest_elems (xs : PyList) (rest : List Char) :
    safeRest (dumpsElemsChars xs ++ rest) := by
  cases xs <;> simp +decide [dumpsElemsChars, safeRest]

theorem safeRest_pairs (kvs : PyObj) (rest : List Char) :
    safeRest (dumpsPairsChars kvs ++ rest) := by
  cases kvs <;> simp +decide [dumpsPairsChars, safeRest]

/-! The printer/parser round-trip. -/

theorem parse_dumps_all (fuel : Nat) : ParseValOk fuel ∧ ParseElemsOk fuel ∧ ParsePairsOk fuel := by
  induction fuel with
  | zero =>
      refine ⟨?_, ?_, ?_⟩
      · intro v rest h _; exact absurd h (Nat.not_lt_zero _)
      · intro x xs rest h _; exact absurd h (Nat.not_lt_zero _)
      · intro k v kvs rest h _; exact absurd h (Nat.not_lt_zero _)
  | succ f ih =>
      obtain ⟨ihP, ihQ, ihR⟩ := ih
      refine ⟨?_, ?_, ?_⟩
      · intro v rest hsz hsafe
        cases v with
        | str s =>
            have he : dumpsChars (.str s) ++ rest = '"' :: (escapeChars s.data ++ '"' :: rest) := by
              simp [dumpsChars]
            rw [he]
            simp +decide [parseVal, parseStr_escape, strMkData]
        | int n =>
            by_cases hn : n < 0
            · have he : dumpsChars (.int n) ++ rest =
                  '-' :: (natToChars n.natAbs ++ rest) := by
                simp [dumpsChars, intChars, hn]
              obtain ⟨c, cs, hcs⟩ := List.exists_cons_of_ne_nil (natToChars_ne_nil n.natAbs)
              have hd : c.isDigit = true := natToChars_digits _ c (by rw [hcs]; simp)
              have hpd : parseDigits (natToChars n.natAbs ++ rest) 0 = (n.natAbs, rest) := by
                rw [parseDigits_spec _ rest 0 (natToChars_digits _) hsafe, natToChars_val]
              rw [he]
              simp +decide only [parseVal, if_false, if_true]
              rw [hcs]
              simp only [List.cons_append, negIntParse, hd, if_true]
              rw [show (c :: (cs ++ rest)) = (c :: cs) ++ rest from rfl, ← hcs, hpd]
              have hval : (-(n.natAbs : Int)) = n := by omega
              rw [hval]
            · have he : dumpsChars (.int n) ++ rest = natToChars n.natAbs ++ rest := by
                simp [dumpsChars, intChars, hn]
              obtain ⟨c, cs, hcs⟩ := List.exists_cons_of_ne_nil (natToChars_ne_nil n.natAbs)
              have hd : c.isDigit = true := natToChars_digits _ c (by rw [hcs]; simp)
              have hne := isDigit_ne_special c hd
              have hpd : parseDigits (natToChars n.natAbs ++ rest) 0 = (n.natAbs, rest) := by
                rw [parseDigits_spec _ rest 0 (natToChars_digits _) hsafe, natToChars_val]
              rw [he, hcs]
              simp only [List.cons_append, parseVal, hd,
                if_neg hne.1, if_neg hne.2.1, if_neg hne.2.2.1, if_neg hne.2.2.2.1,
                if_neg hne.2.2.2.2.1, if_neg hne.2.2.2.2.2.1, if_neg hne.2.2.2.2.2.2.1, if_true]
              rw [show (c :: (cs ++ rest)) = (c :: cs) ++ rest from rfl, ← hcs, hpd]
              have hval : ((n.natAbs : Int)) = n := by omega
              rw [hval]
        | bool b =>
            cases b
            · have he : dumpsChars (.bool false) ++ rest =
                  'f' :: 'a' :: 'l' :: 's' :: 'e' :: rest := by simp [dumpsChars]
              rw [he]
              simp +decide [parseVal]
            · have he : dumpsChars (.bool true) ++ rest =
                  't' :: 'r' :: 'u' :: 'e' :: rest := by simp [dumpsChars]
              rw [he]
              simp +decide [parseVal]
        | null =>
            have he : dumpsChars .null ++ rest = 'n' :: 'u' :: 'l' :: 'l' :: rest := by
              simp [dumpsChars]
            rw [he]
            simp +decide [parseVal]
        | list l =>
            cases l with
            | nil =>
                have he : dumpsChars (.list .nil) ++ rest = '[' :: ']' :: rest := by
                  simp [dumpsChars]
                rw [he]
                simp +decide [parseVal]
            | cons x xs =>
                obtain ⟨c, cs, hx, hc1, hc2⟩ := dumps_head_shape x
                have he : dumpsChars (.list (.cons x xs)) ++ rest =
                    '[' :: ((dumpsChars x ++ dumpsElemsChars xs) ++ rest) := by
                  simp [dumpsChars]
                have hhead : ((dumpsChars x ++ dumpsElemsChars xs) ++ rest).head? ≠ some ']' := by
                  rw [hx]; simp [hc1]
                have hsz2 : sizeE (.cons x xs) < f := by
                  simp [sizeM, sizeE] at hsz ⊢; omega
                rw [he]
                simp +decide only [parseVal, if_false, if_true]
                rw [if_neg hhead]
                have hQ := ihQ x xs rest hsz2 hsafe
                simp only [List.append_assoc, List.cons_append] at hQ ⊢
                rw [hQ]
                rfl
        | obj o =>
            cases o with
            | nil =>
                have he : dumpsChars (.obj .nil) ++ rest = '\x7b' :: '\x7d' :: rest := by
                  simp [dumpsChars]
                rw [he]
                simp +decide [parseVal]
            | cons k v kvs =>
                have he : dumpsChars (.obj (.cons k v kvs)) ++ rest =
                    '\x7b' :: (('"' :: (escapeChars k.data ++ '"' :: ':' :: dumpsChars v)
                      ++ dumpsPairsChars kvs) ++ rest) := by
                  simp [dumpsChars]
                have hhead : (('"' :: (escapeChars k.data ++ '"' :: ':' :: dumpsChars v)
                    ++ dumpsPairsChars kvs) ++ rest).head? ≠ some '\x7d' := by
                  simp +decide
                have hsz2 : sizeP (.cons k v kvs) < f := by
                  simp [sizeM, sizeP] at hsz ⊢; omega
                rw [he]
                simp +decide only [parseVal, if_false, if_true]
                rw [if_neg hhead]
                have hR := ihR k v kvs rest hsz2 hsafe
                simp only [List.append_assoc, List.cons_append] at hR ⊢
                rw [hR]
                rfl
      · intro x xs rest hsz hsafe
        have hszx : sizeM x < f := by simp [sizeE] at hsz; omega
        have hP := ihP x (dumpsElemsChars xs ++ rest) hszx (safeRest_elems xs rest)
        cases xs with
        | nil =>
            simp only [dumpsElemsChars, List.singleton_append, List.append_assoc,
              List.nil_append] at hP
            simp only [parseElems, dumpsElemsChars, List.singleton_append,
              List.append_assoc, List.nil_append]
            rw [hP]
            simp +decide
        | cons x2 xs2 =>
            have hsz2 : sizeE (.cons x2 xs2) < f := by simp [sizeE] at hsz ⊢; omega
            have hQ := ihQ x2 xs2 rest hsz2 hsafe
            simp only [dumpsElemsChars, List.append_eq, List.cons_append,
              List.append_assoc] at hP
            simp only [parseElems, dumpsElemsChars, List.append_eq, List.cons_append,
              List.append_assoc]
            rw [hP]
            simp only [List.append_eq, List.cons_append, List.append_assoc] at hQ
            simp +decide [hQ]
      · intro k v kvs rest hsz hsafe
        have hszv : sizeM v < f := by simp [sizeP] at hsz; omega
        have hP := ihP v (dumpsPairsChars kvs ++ rest) hszv (safeRest_pairs kvs rest)
        have hstr : parseStrChars ((escapeChars k.data ++ '"' :: ':' :: dumpsChars v)
              ++ (dumpsPairsChars kvs ++ rest))
            = some (k.data, ':' :: (dumpsChars v ++ (dumpsPairsChars kvs ++ rest))) := by
          have h := parseStr_escape k.data (':' :: (dumpsChars v ++ (dumpsPairsChars kvs ++ rest)))
          simpa [List.append_assoc] using h
        cases kvs with
        | nil =>
            simp only [dumpsPairsChars, List.append_eq, List.cons_append, List.append_assoc,
              List.singleton_append, List.nil_append] at hP hstr
            simp only [parsePairs, dumpsPairsChars, List.append_eq, List.cons_append,
              List.append_assoc, List.singleton_append, List.nil_append]
            simp +decide only [if_true, if_false]
            rw [hstr]
            simp +decide [hP, strMkData]
        | cons k2 v2 kvs2 =>
            have hsz2 : sizeP (.cons k2 v2 kvs2) < f := by simp [sizeP] at hsz ⊢; omega
            have hR := ihR k2 v2 kvs2 rest hsz2 hsafe
            simp only [dumpsPairsChars, List.append_eq, List.cons_append, List.append_assoc,
              List.singleton_append, List.nil_append] at hP hstr hR
            simp only [parsePairs, dumpsPairsChars, List.append_eq, List.cons_append,
              List.append_assoc, List.singleton_append, List.nil_append]
            simp +decide only [if_true, if_false]
            rw [hstr]
            simp +decide [hP, hR, strMkData]

mutual

theorem sizeM_le_length : (v : PyVal) → sizeM v ≤ (dumpsChars v).length
  | .str s => by simp [sizeM, dumpsChars]
  | .int n => by
      have h : 0 < (natToChars n.natAbs).length :=
        List.length_pos.mpr (natToChars_ne_nil n.natAbs)
      by_cases hn : n < 0 <;> simp [sizeM, dumpsChars, intChars, hn]
      omega
  | .bool b => by cases b <;> simp [sizeM, dumpsChars]
  | .null => by simp [sizeM, dumpsChars]
  | .list .nil => by simp [sizeM, sizeE, dumpsChars]
  | .list (.cons x xs) => by
      have h1 := sizeM_le_length x
      have h2 := sizeE_lt_length xs
      simp only [sizeM, sizeE, dumpsChars, List.length_append, List.length_cons]
      omega
  | .obj .nil => by simp [sizeM, sizeP, dumpsChars]
  | .obj (.cons k v kvs) => by
      have h1 := sizeM_le_length v
      have h2 := sizeP_lt_length kvs
      simp only [sizeM, sizeP, dumpsChars, List.length_append, List.length_cons]
      omega

theorem sizeE_lt_length : (l : PyList) → sizeE l + 1 ≤ (dumpsElemsChars l).length
  | .nil => by simp [sizeE, dumpsElemsChars]
  | .cons x xs => by
      have h1 := sizeM_le_length x
      have h2 := sizeE_lt_length xs
      simp only [sizeE, dumpsElemsChars, List.length_append, List.length_cons]
      omega

theorem sizeP_lt_length : (o : PyObj) → sizeP o + 1 ≤ (dumpsPairsChars o).length
  | .nil => by simp [sizeP, dumpsPairsChars]
  | .cons k v kvs => by
      have h1 := sizeM_le_length v
      have h2 := sizeP_lt_length kvs
      simp only [sizeP, dumpsPairsChars, List.length_append, List.length_cons]
      omega

end

theorem loads_dumps (v : PyVal) : loads (dumps v) = some v := by
  unfold loads dumps
  have hdata : (String.mk (dumpsChars v)).data = dumpsChars v := rfl
  rw [hdata]
  have hsz : sizeM v < (dumpsChars v).length + 1 := Nat.lt_succ_of_le (sizeM_le_length v)
  have h := (parse_dumps_all ((dumpsChars v).length + 1)).1 v [] hsz trivial
  rw [List.append_nil] at h
  rw [h]

/-! Store and association-list lemmas. -/

theorem alookup_storeSet_self (st : Store) (k : String) (e : Entry) :
    alookup (storeSet st k e) k = some e := by
  induction st with
  | nil => simp [storeSet, alookup]
  | cons kv rest ih =>
      by_cases h : kv.1 = k
      · simp [storeSet, h, alookup]
      · simp [storeSet, h, alookup, ih]

theorem alookup_storeSet_other (st : Store) (k k2 : String) (e : Entry) (h : k2 ≠ k) :
    alookup (storeSet st k e) k2 = alookup st k2 := by
  induction st with
  | nil => simp [storeSet, alookup, Ne.symm h]
  | cons kv rest ih =>
      by_cases hk : kv.1 = k
      · subst hk
        simp [storeSet, alookup, h, Ne.symm h]
      · simp [storeSet, hk, alookup, ih]

theorem storeSet_storeSet (st : Store) (k : String) (e1 e2 : Entry) :
    storeSet (storeSet st k e1) k e2 = storeSet st k e2 := by
  induction st with
  | nil => simp [storeSet]
  | cons kv rest ih =>
      by_cases h : kv.1 = k
      · simp [storeSet, h]
      · simp [storeSet, h, ih]

theorem alookup_aset_self (fs : List (String × String)) (k v : String) :
    alookup (aset fs k v) k = some v := by
  induction fs with
  | nil => simp [aset, alookup]
  | cons kv rest ih =>
      by_cases h : kv.1 = k
      · simp [aset, h, alookup]
      · simp [aset, h, alookup, ih]

theorem alookup_aset_other (fs : List (String × String)) (k k2 v : String) (h : k2 ≠ k) :
    alookup (aset fs k v) k2 = alookup fs k2 := by
  induction fs with
  | nil => simp [aset, alookup, Ne.symm h]
  | cons kv rest ih =>
      by_cases hk : kv.1 = k
      · subst hk
        simp [aset, alookup, h, Ne.symm h]
      · simp [aset, hk, alookup, ih]

theorem alookup_foldl_aset_not_mem (mapping : List (String × String)) :
    ∀ fs0 k, k ∉ mapping.map Prod.fst →
      alookup (mapping.foldl (fun fs kv => aset fs kv.1 kv.2) fs0) k = alookup fs0 k := by
  induction mapping with
  | nil => intro fs0 k _; rfl
  | cons kv rest ih =>
      intro fs0 k hk
      simp only [List.map_cons, List.mem_cons] at hk
      push_neg at hk
      simp only [List.foldl_cons]
      rw [ih _ k hk.2, alookup_aset_other _ _ _ _ hk.1]

theorem alookup_foldl_aset (mapping : List (String × String)) :
    ∀ fs0 k v, (mapping.map Prod.fst).Nodup → (k, v) ∈ mapping →
      alookup (mapping.foldl (fun fs kv => aset fs kv.1 kv.2) fs0) k = some v := by
  induction mapping with
  | nil => intro fs0 k v _ h; simp at h
  | cons kv rest ih =>
      intro fs0 k v hnd hm
      simp only [List.map_cons, List.nodup_cons] at hnd
      rcases List.mem_cons.mp hm with h1 | h1
      · subst h1
        simp only [List.foldl_cons]
        rw [alookup_foldl_aset_not_mem rest _ _ hnd.1, alookup_aset_self]
      · simp only [List.foldl_cons]
        exact ih _ k v hnd.2 h1



/-- C4: on a session id with no stored hash, `get_session` fails with the
not-found `RedisClientError` and leaves the store unchanged. -/
theorem C4_get_session_not_found (st : Store) (sid : String) (ex : Nat)
    (h : alookup st sid = none) :
    get_session st sid ex =
      (.error (.redisClientError ("not found session, session_id=" ++ sid)), st) := by
  have hh : hgetall st sid = .ok [] := by unfold hgetall; rw [h]
  unfold get_session
  rw [hh]
  simp

theorem C4_get_session_not_found_witness :
    get_session [] "zz" 77 =
      (.error (.redisClientError ("not found session, session_id=" ++ "zz")), ([] : Store)) :=
  C4_get_session_not_found [] "zz" 77 rfl

/-- C2 (amended): non-mapping input makes `save_update_hash_data` fail fast
with the built-in `ValueError` (not the domain `RedisClientError`), before any
store command, leaving the store unchanged. -/
theorem C2_validation_rejects_nonmapping (st : Store) (name : String) (hd : PyVal) (ex : Nat)
    (h : isMutableMapping hd = false) :
    save_update_hash_data st name hd ex =
      (.error (.valueError "hash data error, must be MutableMapping."), st) := by
  cases hd with
  | obj o => simp [isMutableMapping] at h
  | str s => rfl
  | int n => rfl
  | bool b => rfl
  | null => rfl
  | list l => rfl

theorem C2_validation_rejects_nonmapping_witness :
    isMutableMapping (.list .nil) = false ∧
    save_update_hash_data [] "k" (.list .nil) 60 =
      (.error (.valueError "hash data error, must be MutableMapping."), ([] : Store)) :=
  ⟨rfl, C2_validation_rejects_nonmapping [] "k" (.list .nil) 60 rfl⟩

/-- C2 counterexample: the validation failure is a `ValueError`, which is not
the `RedisClientError` kind the claim names. -/
theorem C2_counterexample :
    save_update_hash_data [] "n" (.str "x") 60 =
      (.error (.valueError "hash data error, must be MutableMapping."), ([] : Store))
    ∧ Err.isRedisClientError (.valueError "hash data error, must be MutableMapping.") = false :=
  ⟨rfl, rfl⟩

/-- C5: `delete_session` fails with the mismatch error and no deletion when the
stored `session_id` field differs from the requested id; when it matches it
deletes, failing only if the deletion removed zero keys. -/
theorem C5_delete_session_checks (st : Store) (sid : String) :
    (∀ r, hget st sid "session_id" = .ok r → r ≠ some sid →
        delete_session st sid =
          (.error (.redisClientError ("invalid session_id, session_id=" ++ sid)), st))
    ∧ (hget st sid "session_id" = .ok (some sid) →
        delete_session st sid =
          (if (redisDelete st sid).1 = 0 then
              .error (.redisClientError ("delete session failed, session_id=" ++ sid))
            else .ok (), (redisDelete st sid).2)) := by
  constructor
  · intro r hr hne
    unfold delete_session
    rw [hr]
    simp [hne]
  · intro hr
    unfold delete_session
    rw [hr]
    rcases hdel : redisDelete st sid with ⟨n, st1⟩
    by_cases hn : n = 0 <;> simp [hdel, hn]

theorem C5_delete_session_checks_witness :
    hget [("a", ⟨.hash [("session_id", "b")], none⟩)] "a" "session_id" = .ok (some "b")
    ∧ delete_session [("a", ⟨.hash [("session_id", "b")], none⟩)] "a" =
        (.error (.redisClientError ("invalid session_id, session_id=" ++ "a")),
          [("a", ⟨.hash [("session_id", "b")], none⟩)]) :=
  ⟨rfl, (C5_delete_session_checks _ "a").1 (some "b") rfl (by simp)⟩



/-- C9: on an absent key, all three getters fail with the expire-refresh
`RedisClientError` instead of returning an empty or nil result. -/
theorem C9_getters_fail_on_missing (st : Store) (name : String) (ex : Nat)
    (h : alookup st name = none) :
    (∀ fn, (get_hash_data st name fn ex).1 =
        .error (.redisClientError ("set expire failed, name=" ++ name)))
    ∧ (∀ start stop, (get_list_data st name start stop ex).1 =
        .error (.redisClientError ("set expire failed, name=" ++ name)))
    ∧ (get_usual_data st name ex).1 =
        .error (.redisClientError ("set expire failed, name=" ++ name)) := by
  have hex : expire st name ex = (false, st) := by unfold expire; rw [h]
  refine ⟨?_, ?_, ?_⟩
  · intro fn
    have hh : hgetall st name = .ok [] := by unfold hgetall; rw [h]
    have hg : hget st name (fn.getD "") = .ok none := by unfold hget; rw [h]
    unfold get_hash_data
    by_cases ht : truthyFieldName fn = true
    · simp [ht, hg, hex]
    · simp only [Bool.not_eq_true] at ht
      simp [ht, hh, hex]
  · intro start stop
    have hl : lrange st name start stop = .ok [] := by unfold lrange; rw [h]
    unfold get_list_data
    simp [hl, hex]
  · have hg : redisGet st name = .ok none := by unfold redisGet; rw [h]
    unfold get_usual_data
    simp [hg, hex]

theorem C9_getters_fail_on_missing_witness :
    (get_hash_data [] "k" none 30).1 =
      .error (.redisClientError ("set expire failed, name=" ++ "k"))
    ∧ (get_list_data [] "k" 0 (-1) 30).1 =
      .error (.redisClientError ("set expire failed, name=" ++ "k"))
    ∧ (get_usual_data [] "k" 30).1 =
      .error (.redisClientError ("set expire failed, name=" ++ "k")) :=
  ⟨(C9_getters_fail_on_missing [] "k" 30 rfl).1 none,
   (C9_getters_fail_on_missing [] "k" 30 rfl).2.1 0 (-1),
   (C9_getters_fail_on_missing [] "k" 30 rfl).2.2⟩

/-- C10: on an existing hash, a falsy `field_name` (`None` or `""`) makes
`get_hash_data` fetch the whole hash; only a truthy name fetches one field. -/
theorem C10_falsy_field_whole_hash (st : Store) (name : String)
    (fs : List (String × String)) (t : Option Nat) (ex : Nat)
    (h : alookup st name = some ⟨.hash fs, t⟩) :
    (get_hash_data st name (some "") ex).1 = .ok (.whole fs)
    ∧ (get_hash_data st name none ex).1 = .ok (.whole fs)
    ∧ ∀ f, f ≠ "" → (get_hash_data st name (some f) ex).1 = .ok (.field (alookup fs f)) := by
  have hh : hgetall st name = .ok fs := by unfold hgetall; rw [h]
  have hex : expire st name ex = (true, storeSet st name ⟨.hash fs, some ex⟩) := by
    unfold expire; rw [h]
  refine ⟨?_, ?_, ?_⟩
  · unfold get_hash_data
    simp [truthyFieldName, hh, hex]
  · unfold get_hash_data
    simp [truthyFieldName, hh, hex]
  · intro f hf
    have hg : hget st name f = .ok (alookup fs f) := by unfold hget; rw [h]
    unfold get_hash_data
    simp [truthyFieldName, hf, hg, hex]

theorem C10_falsy_field_whole_hash_witness :
    (get_hash_data [("h", ⟨.hash [("a", "1")], none⟩)] "h" (some "") 30).1 =
      .ok (.whole [("a", "1")])
    ∧ (get_hash_data [("h", ⟨.hash [("a", "1")], none⟩)] "h" none 30).1 =
      .ok (.whole [("a", "1")])
    ∧ (get_hash_data [("h", ⟨.hash [("a", "1")], none⟩)] "h" (some "a") 30).1 =
      .ok (.field (alookup [("a", "1")] "a")) :=
  ⟨(C10_falsy_field_whole_hash [("h", ⟨.hash [("a", "1")], none⟩)] "h" [("a", "1")] none 30 rfl).1,
   (C10_falsy_field_whole_hash [("h", ⟨.hash [("a", "1")], none⟩)] "h" [("a", "1")] none 30 rfl).2.1,
   (C10_falsy_field_whole_hash [("h", ⟨.hash [("a", "1")], none⟩)] "h" [("a", "1")] none 30
      rfl).2.2 "a" (by decide)⟩



/-- C1 (code bug): after a successful `save_session`, `get_session` on the
returned id raises `TypeError` — the reconstruction call passes `session_id`,
`org_id` and `permission_id` both explicitly and through `**session_data` —
so the save/get round-trip never yields a Session. -/
theorem C1_get_session_duplicate_keyword :
    (save_session [] c1session 100).1 = .ok (.str "s1")
    ∧ (get_session (save_session [] c1session 100).2 "s1" 100).1 =
        .error (.typeError "got multiple values for keyword argument") :=
  ⟨rfl, rfl⟩

/-- C3 counterexample: the stored plain string "123" comes back as the JSON
number 123, not as the string "123". -/
theorem C3_counterexample :
    (get_usual_data (save_update_usual_data [] "k" (.str "123") 60).2 "k" 60).1 =
      .ok (.int 123)
    ∧ ¬((Except.ok (PyVal.int 123) : Except Err PyVal) = .ok (.str "123")) :=
  ⟨rfl, by simp⟩

/-- C3 (amended): a non-string serializable value round-trips through
`save_update_usual_data`/`get_usual_data` unchanged; a plain string is
returned unchanged when it does not parse as JSON (a JSON-parsable string
comes back as the decoded value instead). -/
theorem C3_usual_roundtrip (st : Store) (name : String) (ex ex2 : Nat) :
    (∀ v, isStr v = false →
        (get_usual_data (save_update_usual_data st name v ex).2 name ex2).1 = .ok v)
    ∧ (∀ s2, loads s2 = none →
        (get_usual_data (save_update_usual_data st name (.str s2) ex).2 name ex2).1 =
          .ok (.str s2)) := by
  have hstep : ∀ w : String,
      (get_usual_data (storeSet st name ⟨.str w, some ex⟩) name ex2).1 =
        (match loads w with
         | some v => .ok v
         | none => .ok (.str w)) := by
    intro w
    have hg : redisGet (storeSet st name ⟨.str w, some ex⟩) name = .ok (some w) := by
      unfold redisGet
      rw [alookup_storeSet_self]
    have hex : expire (storeSet st name ⟨.str w, some ex⟩) name ex2 =
        (true, storeSet (storeSet st name ⟨.str w, some ex⟩) name ⟨.str w, some ex2⟩) := by
      unfold expire
      rw [alookup_storeSet_self]
    unfold get_usual_data
    rw [hg, hex]
    rcases hl : loads w with _ | v <;> simp [hl]
  have hsave : ∀ v : PyVal, (save_update_usual_data st name v ex).2 =
      storeSet st name ⟨.str (serializeVal v), some ex⟩ := by
    intro v
    unfold save_update_usual_data redisSet
    rfl
  constructor
  · intro v hv
    have hser : serializeVal v = dumps v := by
      cases v with
      | str s => simp [isStr] at hv
      | int n => rfl
      | bool b => rfl
      | null => rfl
      | list l => rfl
      | obj o => rfl
    rw [hsave v, hser, hstep (dumps v), loads_dumps v]
  · intro s2 hl
    have hser : serializeVal (.str s2) = s2 := rfl
    rw [hsave (.str s2), hser, hstep s2, hl]

theorem C3_usual_roundtrip_witness :
    isStr PyVal.null = false
    ∧ (get_usual_data (save_update_usual_data [] "k" PyVal.null 60).2 "k" 60).1 =
        .ok PyVal.null
    ∧ loads "hello" = none
    ∧ (get_usual_data (save_update_usual_data [] "k" (.str "hello") 60).2 "k" 60).1 =
        .ok (.str "hello") :=
  ⟨rfl, (C3_usual_roundtrip [] "k" 60 60).1 PyVal.null rfl, rfl,
   (C3_usual_roundtrip [] "k" 60 60).2 "hello" rfl⟩

/-- C7 counterexample: on the same session and store, `save_session` returns
the session id while `update_session` returns `None`, though the resulting
stores agree — so the two are not observably identical. -/
theorem C7_counterexample :
    (save_session [] c7session 5).1 = .ok (.str "s7")
    ∧ (update_session [] c7session 5).1 = .ok PyVal.null
    ∧ (save_session [] c7session 5).2 = (update_session [] c7session 5).2
    ∧ ¬((Except.ok (PyVal.str "s7") : Except Err PyVal) = .ok PyVal.null) :=
  ⟨rfl, rfl, rfl, by simp⟩



/-- C7 (amended): `update_session` issues the same store commands as
`save_session` and produces the same store and the same success/failure
outcome, with no existence check; but on success it returns `None` where
`save_session` returns the session id (and its `HMSET`-check failure message
says "update" instead of "save"). -/
theorem C7_update_save_agree (st : Store) (s : Session) (ex : Nat) :
    (update_session st s ex).2 = (save_session st s ex).2
    ∧ ((update_session st s ex).1 = .ok .null ↔
        (save_session st s ex).1 = .ok s.session_id)
    ∧ (update_session st s ex).1.isOk = (save_session st s ex).1.isOk := by
  unfold update_session save_session
  rcases halk : alookup (s.varsDict.map fun kv => (kv.1, serializeVal kv.2)) "session_id"
    with _ | key
  · simp [halk, Except.isOk, Except.toBool]
  · simp only [halk]
    rcases hm : hmset st key (s.varsDict.map fun kv => (kv.1, serializeVal kv.2))
      with e | ⟨ok1, st1⟩
    · simp [hm, Except.isOk, Except.toBool]
    · simp only [hm]
      by_cases h1 : ok1 = false
      · simp [h1, Except.isOk, Except.toBool]
      · rcases hex : expire st1 key ex with ⟨ok2, st2⟩
        by_cases h2 : ok2 = false
        · simp [h1, h2, hex, Except.isOk, Except.toBool]
        · simp [h1, h2, hex, Except.isOk, Except.toBool]



theorem map_serialize_keys (l : List (String × PyVal)) :
    (l.map (fun kv => (kv.1, serializeVal kv.2))).map Prod.fst = l.map Prod.fst := by
  induction l with
  | nil => rfl
  | cons kv rest ih => simp [ih]

theorem varsDict_keys_nodup (s : Session) (hwf : s.WF) :
    (s.varsDict.map Prod.fst).Nodup := by
  obtain ⟨h1, h2⟩ := hwf
  have hk : ∀ n, n ∈ fixedNames → n ∉ s.kwargs.map Prod.fst := by
    intro n hn hmem
    obtain ⟨kv, hkv, hfst⟩ := List.mem_map.mp hmem
    exact h1 kv hkv (hfst ▸ hn)
  simp only [Session.varsDict, List.map_cons, List.nodup_cons, List.mem_cons]
  refine ⟨?_, ?_, ?_, ?_, h2⟩
  · push_neg
    refine ⟨by decide, by decide, by decide, hk "user_id" (by decide)⟩
  · push_neg
    refine ⟨by decide, by decide, hk "session_id" (by decide)⟩
  · push_neg
    refine ⟨by decide, hk "org_id" (by decide)⟩
  · exact hk "permission_id" (by decide)

/-- C6: `save_session` stores every serialized session attribute in a hash
under the (string) session id, sets that key's TTL to `ex`, leaves every
other key alone, and returns the session id. -/
theorem C6_save_session_spec (st : Store) (s : Session) (ex : Nat) (sid : String)
    (hwf : s.WF) (hsid : s.session_id = PyVal.str sid) (hcompat : hashCompatB st sid = true) :
    (save_session st s ex).1 = .ok s.session_id
    ∧ (∃ fs, alookup (save_session st s ex).2 sid = some ⟨.hash fs, some ex⟩
        ∧ ∀ kv ∈ s.varsDict, alookup fs kv.1 = some (serializeVal kv.2))
    ∧ ∀ k, k ≠ sid → alookup (save_session st s ex).2 k = alookup st k := by
  set sd := s.varsDict.map (fun kv => (kv.1, serializeVal kv.2)) with hsd
  have halk : alookup sd "session_id" = some sid := by
    rw [hsd]
    simp +decide [Session.varsDict, alookup, hsid, serializeVal]
  have hnodup : (sd.map Prod.fst).Nodup := by
    rw [hsd, map_serialize_keys]
    exact varsDict_keys_nodup s hwf
  have hne : sd ≠ [] := by rw [hsd]; simp [Session.varsDict]
  have main : ∀ (fs0 : List (String × String)) (t0 : Option Nat),
      hmset st sid sd =
        .ok (true, storeSet st sid
          ⟨.hash (sd.foldl (fun fs kv => aset fs kv.1 kv.2) fs0), t0⟩) →
      (save_session st s ex).1 = .ok s.session_id
      ∧ (∃ fs, alookup (save_session st s ex).2 sid = some ⟨.hash fs, some ex⟩
          ∧ ∀ kv ∈ s.varsDict, alookup fs kv.1 = some (serializeVal kv.2))
      ∧ ∀ k, k ≠ sid → alookup (save_session st s ex).2 k = alookup st k := by
    intro fs0 t0 hm
    have hsave : save_session st s ex = (.ok s.session_id,
        storeSet st sid
          ⟨.hash (sd.foldl (fun fs kv => aset fs kv.1 kv.2) fs0), some ex⟩) := by
      unfold save_session
      rw [← hsd]
      simp only [halk, hm]
      have hex : expire
          (storeSet st sid ⟨.hash (sd.foldl (fun fs kv => aset fs kv.1 kv.2) fs0), t0⟩)
          sid ex =
          (true, storeSet
            (storeSet st sid ⟨.hash (sd.foldl (fun fs kv => aset fs kv.1 kv.2) fs0), t0⟩)
            sid ⟨.hash (sd.foldl (fun fs kv => aset fs kv.1 kv.2) fs0), some ex⟩) := by
        unfold expire
        rw [alookup_storeSet_self]
      rw [hex]
      simp [storeSet_storeSet]
    refine ⟨by rw [hsave], ⟨sd.foldl (fun fs kv => aset fs kv.1 kv.2) fs0, ?_, ?_⟩, ?_⟩
    · rw [hsave]
      exact alookup_storeSet_self _ _ _
    · intro kv hkv
      have hmem : (kv.1, serializeVal kv.2) ∈ sd := by
        rw [hsd]
        exact List.mem_map.mpr ⟨kv, hkv, rfl⟩
      exact alookup_foldl_aset sd fs0 kv.1 (serializeVal kv.2) hnodup hmem
    · intro k hk
      rw [hsave]
      exact alookup_storeSet_other _ _ _ _ hk
  rcases hc : alookup st sid with _ | e
  · refine main [] none ?_
    unfold hmset
    rw [if_neg hne, hc]
  · rcases e with ⟨val, t⟩
    cases val with
    | hash fs0 =>
        refine main fs0 t ?_
        unfold hmset
        rw [if_neg hne, hc]
    | list l =>
        exfalso
        unfold hashCompatB at hcompat
        rw [hc] at hcompat
        simp at hcompat
    | str s3 =>
        exfalso
        unfold hashCompatB at hcompat
        rw [hc] at hcompat
        simp at hcompat

theorem C6_save_session_spec_witness :
    (save_session [] w6session 90).1 = .ok w6session.session_id
    ∧ (∃ fs, alookup (save_session [] w6session 90).2 "s6" = some ⟨.hash fs, some 90⟩
        ∧ ∀ kv ∈ w6session.varsDict, alookup fs kv.1 = some (serializeVal kv.2))
    ∧ ∀ k, k ≠ "s6" → alookup (save_session [] w6session 90).2 k = alookup [] k :=
  C6_save_session_spec [] w6session 90 "s6" (by decide) rfl rfl



theorem lrangeList_all (l : List String) : lrangeList l 0 (-1) = l := by
  unfold lrangeList
  cases l with
  | nil => rfl
  | cons x xs =>
      have hlen : ((x :: xs).length : Int) = (xs.length : Int) + 1 := by simp
      simp only [hlen]
      norm_num

theorem save_list_data_on_list (st : Store) (name : String) (c : ListArg) (flag : Bool)
    (ex : Nat) (l : List String) (t : Option Nat)
    (hne : normalizeArg c ≠ []) (hl : alookup st name = some ⟨.list l, t⟩) :
    save_list_data st name c flag ex =
      (.ok name, storeSet st name
        ⟨.list (if flag then (normalizeArg c).reverse ++ l else l ++ normalizeArg c),
          some ex⟩) := by
  have hlen : (normalizeArg c).length ≠ 0 := by
    intro h
    exact hne (List.eq_nil_of_length_eq_zero h)
  cases flag with
  | true =>
      have hpush : lpush st name (normalizeArg c) =
          .ok ((normalizeArg c).length + l.length,
            storeSet st name ⟨.list ((normalizeArg c).reverse ++ l), t⟩) := by
        unfold lpush
        rw [if_neg hne, hl]
      have hex : expire (storeSet st name ⟨.list ((normalizeArg c).reverse ++ l), t⟩) name ex =
          (true, storeSet (storeSet st name ⟨.list ((normalizeArg c).reverse ++ l), t⟩) name
            ⟨.list ((normalizeArg c).reverse ++ l), some ex⟩) := by
        unfold expire
        rw [alookup_storeSet_self]
      unfold save_list_data
      simp only [if_true, hpush]
      rw [if_neg (by omega)]
      rw [hex, storeSet_storeSet]
      simp
  | false =>
      have hpush : rpush st name (normalizeArg c) =
          .ok ((normalizeArg c).length + l.length,
            storeSet st name ⟨.list (l ++ normalizeArg c), t⟩) := by
        unfold rpush
        rw [if_neg hne, hl]
      have hex : expire (storeSet st name ⟨.list (l ++ normalizeArg c), t⟩) name ex =
          (true, storeSet (storeSet st name ⟨.list (l ++ normalizeArg c), t⟩) name
            ⟨.list (l ++ normalizeArg c), some ex⟩) := by
        unfold expire
        rw [alookup_storeSet_self]
      unfold save_list_data
      simp only [Bool.false_eq_true, if_false, hpush]
      rw [if_neg (by omega)]
      rw [hex, storeSet_storeSet]
      simp

theorem save_list_data_fresh (st : Store) (name : String) (c : ListArg) (flag : Bool)
    (ex : Nat) (hne : normalizeArg c ≠ []) (hl : alookup st name = none) :
    save_list_data st name c flag ex =
      (.ok name, storeSet st name
        ⟨.list (if flag then (normalizeArg c).reverse else normalizeArg c), some ex⟩) := by
  have hlen : (normalizeArg c).length ≠ 0 := by
    intro h
    exact hne (List.eq_nil_of_length_eq_zero h)
  cases flag with
  | true =>
      have hpush : lpush st name (normalizeArg c) =
          .ok ((normalizeArg c).length,
            storeSet st name ⟨.list (normalizeArg c).reverse, none⟩) := by
        unfold lpush
        rw [if_neg hne, hl]
      have hex : expire (storeSet st name ⟨.list (normalizeArg c).reverse, none⟩) name ex =
          (true, storeSet (storeSet st name ⟨.list (normalizeArg c).reverse, none⟩) name
            ⟨.list (normalizeArg c).reverse, some ex⟩) := by
        unfold expire
        rw [alookup_storeSet_self]
      unfold save_list_data
      simp only [if_true, hpush]
      rw [if_neg (by omega)]
      rw [hex, storeSet_storeSet]
      simp
  | false =>
      have hpush : rpush st name (normalizeArg c) =
          .ok ((normalizeArg c).length,
            storeSet st name ⟨.list (normalizeArg c), none⟩) := by
        unfold rpush
        rw [if_neg hne, hl]
      have hex : expire (storeSet st name ⟨.list (normalizeArg c), none⟩) name ex =
          (true, storeSet (storeSet st name ⟨.list (normalizeArg c), none⟩) name
            ⟨.list (normalizeArg c), some ex⟩) := by
        unfold expire
        rw [alookup_storeSet_self]
      unfold save_list_data
      simp only [Bool.false_eq_true, if_false, hpush]
      rw [if_neg (by omega)]
      rw [hex, storeSet_storeSet]
      simp

theorem foldSaveList_on_list (name : String) (flag : Bool) (ex : Nat) :
    ∀ (chunks : List ListArg) (st : Store) (l : List String) (t : Option Nat),
      (∀ c ∈ chunks, normalizeArg c ≠ []) →
      alookup st name = some ⟨.list l, t⟩ →
      alookup (foldSaveList st name chunks flag ex) name =
        some ⟨.list (if flag then (elemsOf chunks).reverse ++ l else l ++ elemsOf chunks),
          if chunks.isEmpty then t else some ex⟩ := by
  intro chunks
  induction chunks with
  | nil =>
      intro st l t _ hl
      simpa [foldSaveList, elemsOf] using hl
  | cons c cs ih =>
      intro st l t hc hl
      have hstep := save_list_data_on_list st name c flag ex l t (hc c (by simp)) hl
      have hfold : foldSaveList st name (c :: cs) flag ex =
          foldSaveList (save_list_data st name c flag ex).2 name cs flag ex := by
        simp [foldSaveList]
      rw [hfold, hstep]
      rw [ih _ _ _ (fun c2 h2 => hc c2 (by simp [h2])) (alookup_storeSet_self _ _ _)]
      cases flag <;> cases cs <;>
        simp [elemsOf, List.reverse_append, List.append_assoc]

/-- C8: starting from an absent key, a series of `save_list_data` calls
followed by `get_list_data(0, -1)` yields the pushed elements in reverse
insertion order when pushing left, and in insertion order when pushing right
(a lone string counts as a one-element sequence via `ListArg.single`). -/
theorem C8_list_order (st : Store) (name : String) (chunks : List ListArg) (flag : Bool)
    (ex ex2 : Nat) (h0 : alookup st name = none) (hne : chunks ≠ [])
    (hc : ∀ c ∈ chunks, normalizeArg c ≠ []) :
    (get_list_data (foldSaveList st name chunks flag ex) name 0 (-1) ex2).1 =
      .ok (if flag then (elemsOf chunks).reverse else elemsOf chunks) := by
  match chunks, hne with
  | c :: cs, _ =>
    have hstep := save_list_data_fresh st name c flag ex (hc c (by simp)) h0
    have hfold : foldSaveList st name (c :: cs) flag ex =
        foldSaveList (save_list_data st name c flag ex).2 name cs flag ex := by
      simp [foldSaveList]
    have hacc := foldSaveList_on_list name flag ex cs
      (save_list_data st name c flag ex).2
      (if flag then (normalizeArg c).reverse else normalizeArg c) (some ex)
      (fun c2 h2 => hc c2 (by simp [h2]))
      (by rw [hstep]; exact alookup_storeSet_self _ _ _)
    rw [hfold]
    set stf := foldSaveList (save_list_data st name c flag ex).2 name cs flag ex with hstf
    have hfin : alookup stf name =
        some ⟨.list (if flag then (elemsOf (c :: cs)).reverse else elemsOf (c :: cs)),
          some ex⟩ := by
      rw [hacc]
      cases flag <;> cases cs <;>
        simp [elemsOf, List.reverse_append, List.append_assoc]
    have hlr : lrange stf name 0 (-1) =
        .ok (if flag then (elemsOf (c :: cs)).reverse else elemsOf (c :: cs)) := by
      unfold lrange
      rw [hfin]
      simp [lrangeList_all]
    have hexp : expire stf name ex2 =
        (true, storeSet stf name
          ⟨.list (if flag then (elemsOf (c :: cs)).reverse else elemsOf (c :: cs)),
            some ex2⟩) := by
      unfold expire
      rw [hfin]
    unfold get_list_data
    rw [hlr, hexp]
    simp

theorem C8_list_order_witness :
    (get_list_data (foldSaveList [] "L" [ListArg.single "a", ListArg.many ["b", "c"]]
        true 9) "L" 0 (-1) 9).1 =
      .ok ["c", "b", "a"] := by
  have h := C8_list_order [] "L" [ListArg.single "a", ListArg.many ["b", "c"]] true 9 9
    rfl (by decide) (by decide)
  rw [h]
  rfl

end AClients
